import Mathlib

set_option maxRecDepth 100000

/-!
Verification development for the `InFilesCache` class
(`src/InFilesCache.ts`): a content-addressed, filesystem-backed cache
for compiled artifacts.

The class and the collaborators it calls are shallowly embedded:

* JS strings are Lean `String`s; the JS string operations used by the
  source (`String.prototype.replace` with a string or a non-global
  regex, `split("/")`, `pop`, template literals, `slice`) are embedded
  as executable functions on `List Char` / `String`.
* `crypto.createHash("md5").update(content).digest("hex")` is embedded
  as a full executable MD5 over the UTF-8 bytes of the content.
* Node's `path.join` / `path.dirname` (posix) are embedded as
  executable functions following Node's documented posix semantics.
* The filesystem (`fs-extra`'s `readFileSync`, `outputFileSync`,
  `removeSync`) is modelled as a function from path strings to a file
  node: a file with content, an absent entry (reads throw `ENOENT`),
  or an entry whose read throws some other system error code.
* `findPathToFile("package.json")` (the project-root locator) is an
  external service; its answer is passed in as a parameter `locator`.
* A thrown JS error is either a propagated system error (carrying its
  `code`) or a `new Error(message)`.
-/

/-! ## JS string primitives -/

/-- Split a character list on `'/'`, exactly like JS `"...".split("/")`:
the result is never empty, empty fields are kept. -/
def splitSlash : List Char → List (List Char)
  | [] => [[]]
  | c :: r =>
    match splitSlash r with
    | t :: ts => if c = '/' then [] :: t :: ts else (c :: t) :: ts
    | [] => [[]]

/-- Interleave `'/'` between the pieces (JS `join("/")`). -/
def joinSlash : List (List Char) → List Char
  | [] => []
  | [x] => x
  | x :: xs => x ++ '/' :: joinSlash xs

/-- Interleave `'-'` between the pieces (JS `join("-")`). -/
def joinDash : List (List Char) → List Char
  | [] => []
  | [x] => x
  | x :: xs => x ++ '-' :: joinDash xs

/-- Remove the first occurrence of `pat` from `l` (JS
`str.replace(pat, "")` with a string pattern: only the first
occurrence is replaced). -/
def replaceFirstAux (pat : List Char) : List Char → List Char
  | [] => []
  | c :: rest =>
    if pat.isPrefixOf (c :: rest) then List.drop pat.length (c :: rest)
    else c :: replaceFirstAux pat rest

/-- JS `str.replace(pat, "")` for a string pattern. -/
def jsReplaceFirst (s pat : String) : String := ⟨replaceFirstAux pat.data s.data⟩

/-- JS `\w` character class (ASCII word character). -/
def isWordChar (c : Char) : Bool := c.isAlphanum || c = '_'

/-- JS `str.replace(/\.\w+/, "")`: delete the first match of a dot
followed by a maximal nonempty run of word characters. -/
def stripExtAux : List Char → List Char
  | [] => []
  | c :: rest =>
    if c = '.' && (match rest.head? with | some r => isWordChar r | none => false)
    then rest.dropWhile isWordChar
    else c :: stripExtAux rest

/-! ## MD5 (model of Node `crypto` md5/hex digest) -/

def M32 : Nat := 4294967296

def rotl32 (x s : Nat) : Nat :=
  ((x % M32) * 2 ^ s + (x % M32) / 2 ^ (32 - s)) % M32

def not32 (x : Nat) : Nat := 4294967295 - x % M32

def md5K : List Nat :=
  [0xd76aa478, 0xe8c7b756, 0x242070db, 0xc1bdceee,
   0xf57c0faf, 0x4787c62a, 0xa8304613, 0xfd469501,
   0x698098d8, 0x8b44f7af, 0xffff5bb1, 0x895cd7be,
   0x6b901122, 0xfd987193, 0xa679438e, 0x49b40821,
   0xf61e2562, 0xc040b340, 0x265e5a51, 0xe9b6c7aa,
   0xd62f105d, 0x02441453, 0xd8a1e681, 0xe7d3fbc8,
   0x21e1cde6, 0xc33707d6, 0xf4d50d87, 0x455a14ed,
   0xa9e3e905, 0xfcefa3f8, 0x676f02d9, 0x8d2a4c8a,
   0xfffa3942, 0x8771f681, 0x6d9d6122, 0xfde5380c,
   0xa4beea44, 0x4bdecfa9, 0xf6bb4b60, 0xbebfbc70,
   0x289b7ec6, 0xeaa127fa, 0xd4ef3085, 0x04881d05,
   0xd9d4d039, 0xe6db99e5, 0x1fa27cf8, 0xc4ac5665,
   0xf4292244, 0x432aff97, 0xab9423a7, 0xfc93a039,
   0x655b59c3, 0x8f0ccc92, 0xffeff47d, 0x85845dd1,
   0x6fa87e4f, 0xfe2ce6e0, 0xa3014314, 0x4e0811a1,
   0xf7537e82, 0xbd3af235, 0x2ad7d2bb, 0xeb86d391]

def md5S : List Nat :=
  [7, 12, 17, 22, 7, 12, 17, 22, 7, 12, 17, 22, 7, 12, 17, 22,
   5, 9, 14, 20, 5, 9, 14, 20, 5, 9, 14, 20, 5, 9, 14, 20,
   4, 11, 16, 23, 4, 11, 16, 23, 4, 11, 16, 23, 4, 11, 16, 23,
   6, 10, 15, 21, 6, 10, 15, 21, 6, 10, 15, 21, 6, 10, 15, 21]

def md5F (i b c d : Nat) : Nat :=
  if i < 16 then (b &&& c) ||| (not32 b &&& d)
  else if i < 32 then (d &&& b) ||| (not32 d &&& c)
  else if i < 48 then b ^^^ c ^^^ d
  else c ^^^ (b ||| not32 d)

def md5G (i : Nat) : Nat :=
  if i < 16 then i
  else if i < 32 then (5 * i + 1) % 16
  else if i < 48 then (3 * i + 5) % 16
  else (7 * i) % 16

def md5Word (chunk : List Nat) (g : Nat) : Nat :=
  chunk.getD (4 * g) 0 + 256 * chunk.getD (4 * g + 1) 0 +
    65536 * chunk.getD (4 * g + 2) 0 + 16777216 * chunk.getD (4 * g + 3) 0

def md5Step (chunk : List Nat) (st : Nat × Nat × Nat × Nat) (i : Nat) :
    Nat × Nat × Nat × Nat :=
  let (a, b, c, d) := st
  let f := (md5F i b c d + a + md5K.getD i 0 + md5Word chunk (md5G i)) % M32
  (d, (b + rotl32 f (md5S.getD i 0)) % M32, b, c)

def md5Chunk (st0 : Nat × Nat × Nat × Nat) (chunk : List Nat) :
    Nat × Nat × Nat × Nat :=
  let (a0, b0, c0, d0) := st0
  let (a, b, c, d) := (List.range 64).foldl (md5Step chunk) st0
  ((a0 + a) % M32, (b0 + b) % M32, (c0 + c) % M32, (d0 + d) % M32)

def leBytes8 (n : Nat) : List Nat :=
  [n % 256, n / 256 % 256, n / 65536 % 256, n / 16777216 % 256,
   n / 4294967296 % 256, n / 1099511627776 % 256,
   n / 281474976710656 % 256, n / 72057594037927936 % 256]

def md5Pad (msg : List Nat) : List Nat :=
  let len := msg.length
  let padLen := (56 + 64 - (len + 1) % 64) % 64
  msg ++ 128 :: List.replicate padLen 0 ++ leBytes8 (8 * len)

/-- Fuel-driven 64-byte chunking (structural recursion so that the
kernel can evaluate it). -/
def toChunksAux : Nat → List Nat → List (List Nat)
  | 0, _ => []
  | _ + 1, [] => []
  | fuel + 1, l => l.take 64 :: toChunksAux fuel (l.drop 64)

def toChunks (l : List Nat) : List (List Nat) := toChunksAux (l.length + 1) l

def md5Init : Nat × Nat × Nat × Nat :=
  (0x67452301, 0xefcdab89, 0x98badcfe, 0x10325476)

def leBytes4 (n : Nat) : List Nat :=
  [n % 256, n / 256 % 256, n / 65536 % 256, n / 16777216 % 256]

def md5Bytes (msg : List Nat) : List Nat :=
  let (a, b, c, d) := (toChunks (md5Pad msg)).foldl md5Chunk md5Init
  leBytes4 a ++ leBytes4 b ++ leBytes4 c ++ leBytes4 d

def hexChar (n : Nat) : Char := "0123456789abcdef".data.getD n '0'

def bytesToHex : List Nat → List Char
  | [] => []
  | b :: rest => hexChar (b / 16 % 16) :: hexChar (b % 16) :: bytesToHex rest

/-- UTF-8 encoding of one code point (what `hash.update(string)` feeds
to the digest). -/
def utf8Char (c : Char) : List Nat :=
  let n := c.toNat
  if n < 128 then [n]
  else if n < 2048 then [192 + n / 64, 128 + n % 64]
  else if n < 65536 then [224 + n / 4096, 128 + n / 64 % 64, 128 + n % 64]
  else [240 + n / 262144, 128 + n / 4096 % 64, 128 + n / 64 % 64, 128 + n % 64]

def utf8Bytes (s : String) : List Nat :=
  s.data.foldr (fun c acc => utf8Char c ++ acc) []

/-- Hex-encoded MD5 digest of a string, as a character list
(`crypto.createHash("md5").update(content).digest("hex")`). -/
def md5HexChars (s : String) : List Char := bytesToHex (md5Bytes (utf8Bytes s))

/-! ## Node `path` (posix) collaborator model -/

/-- Core of Node's posix `path.normalize`: resolve `.` / `..` / empty
segments; `allowAbove` tells whether leading `..` segments survive
(they do for relative paths, they are dropped for absolute ones). -/
def normSegsAux (allowAbove : Bool) (acc : List (List Char)) :
    List (List Char) → List (List Char)
  | [] => acc.reverse
  | s :: rest =>
    if s = [] || s = ['.'] then normSegsAux allowAbove acc rest
    else if s = ['.', '.'] then
      match acc with
      | top :: acc' =>
        if top = ['.', '.'] then normSegsAux allowAbove (s :: acc) rest
        else normSegsAux allowAbove acc' rest
      | [] =>
        if allowAbove then normSegsAux allowAbove [s] rest
        else normSegsAux allowAbove [] rest
    else normSegsAux allowAbove (s :: acc) rest

/-- Node posix `path.normalize` on character lists. -/
def normalizeChars (l : List Char) : List Char :=
  if l = [] then ['.']
  else
    let isAbs := l.head? = some '/'
    let hasTrail := l.getLast? = some '/'
    let body := joinSlash (normSegsAux (!isAbs) [] (splitSlash l))
    if isAbs then
      if body = [] then ['/']
      else '/' :: body ++ (if hasTrail then ['/'] else [])
    else
      if body = [] then (if hasTrail then ['.', '/'] else ['.'])
      else body ++ (if hasTrail then ['/'] else [])

/-- Node posix `path.join`: drop empty parts, join with `/`,
normalize. -/
def pathJoinChars (parts : List (List Char)) : List Char :=
  match parts.filter (· ≠ []) with
  | [] => ['.']
  | ps => normalizeChars (joinSlash ps)

def pathJoin (parts : List String) : String :=
  ⟨pathJoinChars (parts.map String.data)⟩

/-- Node posix `path.dirname` on character lists. -/
def dirnameChars : List Char → List Char
  | [] => ['.']
  | c0 :: tail =>
    let r := tail.reverse
    let t1 := r.dropWhile (· = '/')
    let t2 := t1.dropWhile (· ≠ '/')
    match t2 with
    | [] => if c0 = '/' then ['/'] else ['.']
    | _ :: rest =>
      if c0 = '/' && rest = [] then ['/', '/'] else c0 :: rest.reverse

def dirname (p : String) : String := ⟨dirnameChars p.data⟩

/-! ## Filesystem and error model -/

/-- What the filesystem holds at one path: a file with UTF-8 content,
nothing (reads throw `ENOENT`), or an entry whose read throws another
system error (e.g. `EACCES`). -/
inductive FileNode where
  | file (content : String)
  | absent
  | ioError (code : String)
deriving DecidableEq

/-- The filesystem: a map from path strings to nodes. -/
def FS := String → FileNode

/-- A thrown JS error: a system error carrying its `code`
(as rethrown by `readFile`) or a plain `new Error(message)`. -/
inductive JsError where
  | system (code : String)
  | generic (message : String)
deriving DecidableEq

deriving instance DecidableEq for Except

/-- Model of `outputFileSync p content`: write the file, creating
parents as needed, overwriting what was there. -/
def outputFileSync (p content : String) (fs : FS) : FS :=
  fun q => if q = p then .file content else fs q

/-- Model of `removeSync target`: recursively delete the entry and
everything below it; a no-op on paths where nothing exists. -/
def removeSync (target : String) (fs : FS) : FS :=
  fun q =>
    if q = target || (target ++ "/").data.isPrefixOf q.data then .absent
    else fs q

/-! ## The InFilesCache class -/

namespace InFilesCache

/-- The cache-request record (`CacheParams` in the source):
`fileContent` is optional — `some` for "virtual" files, `none` for
"real" ones. -/
structure CacheParams where
  filePath : String
  fileContent : Option String := none
  fileExtension : String
deriving DecidableEq

/-- JS truthiness of the optional content field (`undefined`, `null`
and `""` are falsy). -/
def jsTruthy : Option String → Bool
  | none => false
  | some s => s != ""

/-- `private readFile(filePath)`: `readFileSync` wrapped so that an
`ENOENT` failure becomes `null` and every other error is rethrown. -/
def readFile (fs : FS) (filePath : String) : Except JsError (Option String) :=
  match fs filePath with
  | .file c => .ok (some c)
  | .absent => .ok none
  | .ioError code =>
    if code = "ENOENT" then .ok none else .error (.system code)

/-- `private absolutePathToRelative(pathToModify, appRootFolderPath)`:
`pathToModify.replace(appRootFolderPath, "")`. -/
def absolutePathToRelative (pathToModify appRootFolderPath : String) : String :=
  jsReplaceFirst pathToModify appRootFolderPath

/-- `public generateHash(content)`: hex MD5 digest sliced to its first
10 characters. -/
def generateHash (content : String) : String :=
  ⟨(md5HexChars content).take 10⟩

/-- `public generateCacheFileName(fileContent, fileExtension)`:
the hash followed by the extension, verbatim. -/
def generateCacheFileName (fileContent fileExtension : String) : String :=
  generateHash fileContent ++ fileExtension

/-- `private generateCacheFolderName(filePath)`: remove the first
`"/"` (regex `/\//` is unanchored), split on `"/"`, pop the file name,
strip its extension (first `/\.\w+/` match), and join what is left
with `"-"`. -/
def generateCacheFolderName (filePath : String) : String :=
  let tokens := splitSlash (jsReplaceFirst filePath "/").data
  let fileName := tokens.getLastD []
  let dirs := tokens.dropLast
  let fileNameWithoutExtension := stripExtAux fileName
  if dirs.length != 0 then ⟨joinDash dirs ++ '-' :: fileNameWithoutExtension⟩
  else ⟨fileNameWithoutExtension⟩

/-- `private prepareCacheParams(originalCacheParams, appRootFolderPath)`:
normalize the file path, take the caller's content if truthy else read
the file, throw `new Error("There is no such a file: " + path)` when
the result is falsy. -/
def prepareCacheParams (fs : FS) (originalCacheParams : CacheParams)
    (appRootFolderPath : String) : Except JsError CacheParams :=
  let resultFilePath :=
    absolutePathToRelative originalCacheParams.filePath appRootFolderPath
  let contentRead : Except JsError (Option String) :=
    if jsTruthy originalCacheParams.fileContent then
      .ok originalCacheParams.fileContent
    else readFile fs resultFilePath
  match contentRead with
  | .error e => .error e
  | .ok resultFileContent =>
    if jsTruthy resultFileContent then
      .ok { fileExtension := originalCacheParams.fileExtension,
            filePath := resultFilePath,
            fileContent := resultFileContent }
    else .error (.generic ("There is no such a file: " ++ resultFilePath))

/-- `private generatePathToCacheFile` with the app root passed
explicitly (the method obtains it from `getAppRootFolderPath`). -/
def generatePathToCacheFile (fs : FS) (cacheFolderPath appRootFolderPath : String)
    (originalCacheParams : CacheParams) : Except JsError String :=
  match prepareCacheParams fs originalCacheParams appRootFolderPath with
  | .error e => .error e
  | .ok p =>
    let cacheFileName :=
      generateCacheFileName (p.fileContent.getD "") p.fileExtension
    let cacheFolderName := generateCacheFolderName p.filePath
    let cacheFolderPathRel := absolutePathToRelative cacheFolderPath appRootFolderPath
    .ok (pathJoin [appRootFolderPath, cacheFolderPathRel, cacheFolderName,
                   cacheFileName])

/-- `private generatePathToFileCacheFolder`: `path.dirname` of the
cache-file path. -/
def generatePathToFileCacheFolder (fs : FS) (cacheFolderPath appRootFolderPath : String)
    (originalCacheParams : CacheParams) : Except JsError String :=
  match generatePathToCacheFile fs cacheFolderPath appRootFolderPath
      originalCacheParams with
  | .error e => .error e
  | .ok p => .ok (dirname p)

/-- Instance state: the constructor argument plus the memoized
`private appRootPath = null` field. -/
structure CacheState where
  cacheFolderPath : String
  appRootPath : Option String := none
deriving DecidableEq

/-- `private async getAppRootFolderPath()`: return the memoized root
if truthy, otherwise invoke the locator (`findPathToFile`) whose
answer is `locator`, store it, and return it.  The boolean records
whether the locator was invoked. -/
def getAppRootFolderPath (locator : String) (st : CacheState) :
    String × CacheState × Bool :=
  if jsTruthy st.appRootPath then (st.appRootPath.getD "", st, false)
  else (locator, { st with appRootPath := some locator }, true)

/-- Everything one public operation produces: its result, the instance
state afterwards, the filesystem afterwards, and whether the root
locator was invoked. -/
structure OpOutcome (α : Type) where
  res : Except JsError α
  st : CacheState
  fs : FS
  invoked : Bool

/-- `public async get(cacheParams)`: resolve the cache-file path, read
it with the `ENOENT`-to-`null` wrapper. -/
def get (locator : String) (st : CacheState) (fs : FS)
    (cacheParams : CacheParams) : OpOutcome (Option String) :=
  let (root, st', inv) := getAppRootFolderPath locator st
  match generatePathToCacheFile fs st'.cacheFolderPath root cacheParams with
  | .error e => ⟨.error e, st', fs, inv⟩
  | .ok p => ⟨readFile fs p, st', fs, inv⟩

/-- `public async set(cacheParams, contentToCache)`: resolve the
cache-file path and write the artifact there. -/
def set (locator : String) (st : CacheState) (fs : FS)
    (cacheParams : CacheParams) (contentToCache : String) : OpOutcome Unit :=
  let (root, st', inv) := getAppRootFolderPath locator st
  match generatePathToCacheFile fs st'.cacheFolderPath root cacheParams with
  | .error e => ⟨.error e, st', fs, inv⟩
  | .ok p => ⟨.ok (), st', outputFileSync p contentToCache fs, inv⟩

/-- `public async clear(cacheParams)`: resolve the per-file cache
folder and remove it recursively. -/
def clear (locator : String) (st : CacheState) (fs : FS)
    (cacheParams : CacheParams) : OpOutcome Unit :=
  let (root, st', inv) := getAppRootFolderPath locator st
  match generatePathToFileCacheFolder fs st'.cacheFolderPath root cacheParams with
  | .error e => ⟨.error e, st', fs, inv⟩
  | .ok folder => ⟨.ok (), st', removeSync folder fs, inv⟩

/-- The root an operation effectively uses: the memoized value when
truthy, else the locator's answer. -/
def effectiveRoot (locator : String) (st : CacheState) : String :=
  (getAppRootFolderPath locator st).1

end InFilesCache

/-- A path segment that survives normalization untouched: nonempty
and neither `.` nor `..`. -/
@[reducible] def goodSegC (s : List Char) : Prop :=
  s ≠ [] ∧ s ≠ ['.'] ∧ s ≠ ['.', '.']

/-! Concrete scenario used to witness the invalidation claim: one
instance, two revisions of the same virtual file, then `clear`. -/

def wStA : InFilesCache.CacheState := ⟨"cache", some "/app"⟩

def wFs0 : FS := fun _ => FileNode.absent

def wReqA : InFilesCache.CacheParams := ⟨"someFile.txt", some "contentA", ".txt"⟩

def wReqB : InFilesCache.CacheParams := ⟨"someFile.txt", some "contentB", ".txt"⟩

def wO1 : InFilesCache.OpOutcome Unit :=
  InFilesCache.set "/app" wStA wFs0 wReqA "artifactA"

def wO2 : InFilesCache.OpOutcome Unit :=
  InFilesCache.set "/app" wO1.st wO1.fs wReqB "artifactB"

def wO3 : InFilesCache.OpOutcome Unit :=
  InFilesCache.clear "/app" wO2.st wO2.fs wReqA

/-! ## Basic lemmas about the hash -/

theorem bytesToHex_length (l : List Nat) : (bytesToHex l).length = 2 * l.length := by
  induction l with
  | nil => simp [bytesToHex]
  | cons b r ih => simp [bytesToHex, ih]; omega

theorem md5Bytes_length (msg : List Nat) : (md5Bytes msg).length = 16 := by
  unfold md5Bytes
  rcases (toChunks (md5Pad msg)).foldl md5Chunk md5Init with ⟨a, b, c, d⟩
  simp [leBytes4]

theorem md5HexChars_length (s : String) : (md5HexChars s).length = 32 := by
  unfold md5HexChars
  rw [bytesToHex_length, md5Bytes_length]

theorem generateHash_length (c : String) : (InFilesCache.generateHash c).length = 10 := by
  show ((md5HexChars c).take 10).length = 10
  rw [List.length_take, md5HexChars_length]
  decide

theorem hexChar_ne_slash (n : Nat) : hexChar n ≠ '/' := by
  unfold hexChar
  rcases Nat.lt_or_ge n 16 with h | h
  · interval_cases n <;> decide
  · rw [List.getD_eq_default]
    · decide
    · simpa using h

theorem mem_bytesToHex_ne_slash (l : List Nat) (c : Char)
    (h : c ∈ bytesToHex l) : c ≠ '/' := by
  induction l with
  | nil => simp [bytesToHex] at h
  | cons b r ih =>
    simp only [bytesToHex, List.mem_cons] at h
    rcases h with h | h | h
    · rw [h]; exact hexChar_ne_slash _
    · rw [h]; exact hexChar_ne_slash _
    · exact ih h

theorem generateHash_no_slash (c : String) :
    '/' ∉ (InFilesCache.generateHash c).data := by
  intro hmem
  have hmem' : '/' ∈ md5HexChars c := List.take_subset 10 _ hmem
  exact mem_bytesToHex_ne_slash _ _ hmem' rfl

/-! ## Lemmas about the first-occurrence replacement -/

theorem replaceFirstAux_of_isPrefixOf (pat l : List Char)
    (h : pat.isPrefixOf l = true) : replaceFirstAux pat l = l.drop pat.length := by
  cases l with
  | nil => simp [replaceFirstAux]
  | cons c rest => simp [replaceFirstAux, h]

theorem replaceFirstAux_no_occurrence (pat l : List Char)
    (h : ¬ pat <:+: l) : replaceFirstAux pat l = l := by
  induction l with
  | nil => simp [replaceFirstAux]
  | cons c rest ih =>
    have hpre : ¬ pat.isPrefixOf (c :: rest) = true := fun h' =>
      h (List.IsPrefix.isInfix (( List.isPrefixOf_iff_prefix).mp h'))
    rw [replaceFirstAux, if_neg hpre,
      ih (fun hin => h (List.infix_cons hin))]

/-! ## Claim C2 -/

/-- C2: the claim says the folder name is obtained by stripping a
single *leading* path separator, so that `"a/b/c/file.ext"` gives
`"a-b-c-file"` and `"/x/file.ts"` agrees with `"x/file.ts"`.  The code
instead executes `filePath.replace(/\//, "")`, an unanchored regex
that deletes the *first slash anywhere* — contradicting the inline
comment "Replaces slash in the beginning" right above it.  Evaluating
the embedded code: `"a/b/c/file.ext"` gives `"ab-c-file"`, `"/x/file.ts"`
gives `"x-file"` while `"x/file.ts"` gives `"xfile"`. -/
theorem cacheFolderName_removes_first_slash_anywhere :
    InFilesCache.generateCacheFolderName "a/b/c/file.ext" = "ab-c-file" ∧
    InFilesCache.generateCacheFolderName "/x/file.ts" = "x-file" ∧
    InFilesCache.generateCacheFolderName "x/file.ts" = "xfile" := by
  decide

/-! ## Claim C5 -/

/-- C5: the generated cache file name is the hex MD5 digest of the
content truncated to its first 10 characters with the extension
appended verbatim; the hash is always exactly 10 characters long and
is deterministic (equal contents give equal hashes). -/
theorem cacheFileName_is_truncated_hash_plus_extension
    (c₁ c₂ e : String) (h : c₁ = c₂) :
    InFilesCache.generateCacheFileName c₁ e = InFilesCache.generateHash c₁ ++ e ∧
    (InFilesCache.generateHash c₁).length = 10 ∧
    InFilesCache.generateHash c₁ = InFilesCache.generateHash c₂ :=
  ⟨rfl, generateHash_length c₁, by rw [h]⟩

/-- Witness for C5 at the end-to-end example input of the spec. -/
theorem cacheFileName_is_truncated_hash_plus_extension_witness :
    InFilesCache.generateCacheFileName "some content" ".txt" =
      InFilesCache.generateHash "some content" ++ ".txt" ∧
    (InFilesCache.generateHash "some content").length = 10 ∧
    InFilesCache.generateHash "some content" = InFilesCache.generateHash "some content" :=
  cacheFileName_is_truncated_hash_plus_extension "some content" "some content" ".txt" rfl

/-! ## Claim C7 -/

/-- C7 counterexample: the claim says normalization is the identity on
every relative input.  `"src/app/x.ts"` is relative (does not start
with a separator), yet `absolutePathToRelative` rewrites it to
`"src/x.ts"`, because JS `replace` deletes the first occurrence of the
root *anywhere*, not only a leading one. -/
theorem normalize_alters_relative_path_containing_root :
    "src/app/x.ts".data.head? ≠ some '/' ∧
    InFilesCache.absolutePathToRelative "src/app/x.ts" "/app" = "src/x.ts" ∧
    InFilesCache.absolutePathToRelative "src/app/x.ts" "/app" ≠ "src/app/x.ts" := by
  decide

/-- C7 amended: `absolutePathToRelative` removes the first occurrence
of the project root as a substring.  Hence (i) on a path that begins
with the root it strips exactly that prefix, and (ii) it is the
identity exactly on paths in which the root does not occur at all —
not on every relative path. -/
theorem normalize_strips_first_occurrence_of_root (p root : String) :
    (root.data.isPrefixOf p.data = true →
      InFilesCache.absolutePathToRelative p root = ⟨p.data.drop root.data.length⟩) ∧
    (¬ root.data <:+: p.data → InFilesCache.absolutePathToRelative p root = p) := by
  constructor
  · intro h
    show (⟨replaceFirstAux root.data p.data⟩ : String) = _
    rw [replaceFirstAux_of_isPrefixOf _ _ h]
  · intro h
    show (⟨replaceFirstAux root.data p.data⟩ : String) = p
    rw [replaceFirstAux_no_occurrence _ _ h]

/-- Witness for the amended C7: the root prefix of an absolute path is
stripped exactly; a path not containing the root is untouched. -/
theorem normalize_strips_first_occurrence_of_root_witness :
    InFilesCache.absolutePathToRelative "/app/src/x.ts" "/app" = "/src/x.ts" ∧
    InFilesCache.absolutePathToRelative "src/x.ts" "/app" = "src/x.ts" :=
  ⟨((normalize_strips_first_occurrence_of_root "/app/src/x.ts" "/app").1
      (by decide)).trans (by decide),
   (normalize_strips_first_occurrence_of_root "src/x.ts" "/app").2 (by decide)⟩

/-! ## Lemmas about root resolution and path resolution -/

namespace InFilesCache

theorem getApp_cacheFolderPath (L : String) (st : CacheState) :
    ((getAppRootFolderPath L st).2.1).cacheFolderPath = st.cacheFolderPath := by
  unfold getAppRootFolderPath
  split <;> rfl

theorem getApp_memo (L : String) (st : CacheState)
    (h : effectiveRoot L st ≠ "") :
    ((getAppRootFolderPath L st).2.1).appRootPath = some (effectiveRoot L st) := by
  unfold effectiveRoot getAppRootFolderPath at *
  cases hm : st.appRootPath with
  | none => simp [jsTruthy, hm]
  | some s =>
    by_cases hs : s = ""
    · simp [jsTruthy, hm, hs]
    · simp [jsTruthy, hm, hs]

theorem effectiveRoot_after (L L' : String) (st : CacheState)
    (h : effectiveRoot L st ≠ "") :
    effectiveRoot L' ((getAppRootFolderPath L st).2.1) = effectiveRoot L st := by
  have hm := getApp_memo L st h
  generalize hr : effectiveRoot L st = r at hm h ⊢
  generalize (getAppRootFolderPath L st).2.1 = st2 at hm ⊢
  unfold effectiveRoot getAppRootFolderPath
  simp [hm, jsTruthy, h]

theorem readFile_congr (fs fs' : FS) (p : String) (h : fs' p = fs p) :
    readFile fs' p = readFile fs p := by
  unfold readFile
  rw [h]

theorem resolve_fs_agree (fs fs' : FS) (cfp root : String) (cp : CacheParams)
    (h : fs' (absolutePathToRelative cp.filePath root) =
      fs (absolutePathToRelative cp.filePath root)) :
    generatePathToCacheFile fs' cfp root cp = generatePathToCacheFile fs cfp root cp := by
  unfold generatePathToCacheFile prepareCacheParams
  dsimp only
  rw [readFile_congr fs fs' _ h]

theorem resolve_virtual (fs : FS) (cfp root : String) (cp : CacheParams)
    (h : jsTruthy cp.fileContent = true) :
    generatePathToCacheFile fs cfp root cp =
      .ok (pathJoin [root, absolutePathToRelative cfp root,
        generateCacheFolderName (absolutePathToRelative cp.filePath root),
        generateCacheFileName (cp.fileContent.getD "") cp.fileExtension]) := by
  unfold generatePathToCacheFile prepareCacheParams
  simp [h]

theorem resolve_missing (fs : FS) (cfp root : String) (cp : CacheParams)
    (hv : jsTruthy cp.fileContent = false)
    (h : fs (absolutePathToRelative cp.filePath root) = .absent) :
    generatePathToCacheFile fs cfp root cp =
      .error (.generic ("There is no such a file: " ++
        absolutePathToRelative cp.filePath root)) := by
  have hread : readFile fs (absolutePathToRelative cp.filePath root) = .ok none := by
    unfold readFile
    rw [h]
  unfold generatePathToCacheFile prepareCacheParams
  dsimp only
  rw [hv, hread]
  simp [jsTruthy]

end InFilesCache

namespace InFilesCache

theorem get_eq_of_ok (L : String) (st : CacheState) (fs : FS) (cp : CacheParams)
    (p : String)
    (h : generatePathToCacheFile fs st.cacheFolderPath (effectiveRoot L st) cp = .ok p) :
    get L st fs cp =
      ⟨readFile fs p, (getAppRootFolderPath L st).2.1, fs,
        (getAppRootFolderPath L st).2.2⟩ := by
  rcases hG : getAppRootFolderPath L st with ⟨root, st2, inv⟩
  have hroot : root = effectiveRoot L st := by rw [effectiveRoot, hG]
  have hcf : st2.cacheFolderPath = st.cacheFolderPath := by
    have := getApp_cacheFolderPath L st
    rw [hG] at this
    exact this
  unfold get
  rw [hG]
  dsimp only
  rw [hcf, hroot, h]

theorem get_eq_of_error (L : String) (st : CacheState) (fs : FS) (cp : CacheParams)
    (e : JsError)
    (h : generatePathToCacheFile fs st.cacheFolderPath (effectiveRoot L st) cp = .error e) :
    get L st fs cp =
      ⟨.error e, (getAppRootFolderPath L st).2.1, fs,
        (getAppRootFolderPath L st).2.2⟩ := by
  rcases hG : getAppRootFolderPath L st with ⟨root, st2, inv⟩
  have hroot : root = effectiveRoot L st := by rw [effectiveRoot, hG]
  have hcf : st2.cacheFolderPath = st.cacheFolderPath := by
    have := getApp_cacheFolderPath L st
    rw [hG] at this
    exact this
  unfold get
  rw [hG]
  dsimp only
  rw [hcf, hroot, h]

theorem set_eq_of_ok (L : String) (st : CacheState) (fs : FS) (cp : CacheParams)
    (a : String) (p : String)
    (h : generatePathToCacheFile fs st.cacheFolderPath (effectiveRoot L st) cp = .ok p) :
    set L st fs cp a =
      ⟨.ok (), (getAppRootFolderPath L st).2.1, outputFileSync p a fs,
        (getAppRootFolderPath L st).2.2⟩ := by
  rcases hG : getAppRootFolderPath L st with ⟨root, st2, inv⟩
  have hroot : root = effectiveRoot L st := by rw [effectiveRoot, hG]
  have hcf : st2.cacheFolderPath = st.cacheFolderPath := by
    have := getApp_cacheFolderPath L st
    rw [hG] at this
    exact this
  unfold set
  rw [hG]
  dsimp only
  rw [hcf, hroot, h]

theorem set_eq_of_error (L : String) (st : CacheState) (fs : FS) (cp : CacheParams)
    (a : String) (e : JsError)
    (h : generatePathToCacheFile fs st.cacheFolderPath (effectiveRoot L st) cp = .error e) :
    set L st fs cp a =
      ⟨.error e, (getAppRootFolderPath L st).2.1, fs,
        (getAppRootFolderPath L st).2.2⟩ := by
  rcases hG : getAppRootFolderPath L st with ⟨root, st2, inv⟩
  have hroot : root = effectiveRoot L st := by rw [effectiveRoot, hG]
  have hcf : st2.cacheFolderPath = st.cacheFolderPath := by
    have := getApp_cacheFolderPath L st
    rw [hG] at this
    exact this
  unfold set
  rw [hG]
  dsimp only
  rw [hcf, hroot, h]

theorem clear_eq_of_ok (L : String) (st : CacheState) (fs : FS) (cp : CacheParams)
    (p : String)
    (h : generatePathToCacheFile fs st.cacheFolderPath (effectiveRoot L st) cp = .ok p) :
    clear L st fs cp =
      ⟨.ok (), (getAppRootFolderPath L st).2.1, removeSync (dirname p) fs,
        (getAppRootFolderPath L st).2.2⟩ := by
  rcases hG : getAppRootFolderPath L st with ⟨root, st2, inv⟩
  have hroot : root = effectiveRoot L st := by rw [effectiveRoot, hG]
  have hcf : st2.cacheFolderPath = st.cacheFolderPath := by
    have := getApp_cacheFolderPath L st
    rw [hG] at this
    exact this
  unfold clear generatePathToFileCacheFolder
  rw [hG]
  dsimp only
  rw [hcf, hroot, h]

theorem clear_eq_of_error (L : String) (st : CacheState) (fs : FS) (cp : CacheParams)
    (e : JsError)
    (h : generatePathToCacheFile fs st.cacheFolderPath (effectiveRoot L st) cp = .error e) :
    clear L st fs cp =
      ⟨.error e, (getAppRootFolderPath L st).2.1, fs,
        (getAppRootFolderPath L st).2.2⟩ := by
  rcases hG : getAppRootFolderPath L st with ⟨root, st2, inv⟩
  have hroot : root = effectiveRoot L st := by rw [effectiveRoot, hG]
  have hcf : st2.cacheFolderPath = st.cacheFolderPath := by
    have := getApp_cacheFolderPath L st
    rw [hG] at this
    exact this
  unfold clear generatePathToFileCacheFolder
  rw [hG]
  dsimp only
  rw [hcf, hroot, h]

end InFilesCache

namespace InFilesCache

theorem resolve_falsy (fs : FS) (cfp root : String) (cp : CacheParams)
    (hv : jsTruthy cp.fileContent = false) (c : Option String)
    (hread : readFile fs (absolutePathToRelative cp.filePath root) = .ok c)
    (hc : jsTruthy c = false) :
    generatePathToCacheFile fs cfp root cp =
      .error (.generic ("There is no such a file: " ++
        absolutePathToRelative cp.filePath root)) := by
  unfold generatePathToCacheFile prepareCacheParams
  dsimp only
  rw [hv, hread]
  simp [hc]

theorem resolve_empty_eq_none (fs : FS) (cfp root fp e : String) :
    generatePathToCacheFile fs cfp root ⟨fp, some "", e⟩ =
      generatePathToCacheFile fs cfp root ⟨fp, none, e⟩ := by
  unfold generatePathToCacheFile prepareCacheParams
  simp [jsTruthy]

theorem get_congr (L : String) (st : CacheState) (fs : FS) (cp1 cp2 : CacheParams)
    (h : ∀ cfp root, generatePathToCacheFile fs cfp root cp1 =
      generatePathToCacheFile fs cfp root cp2) :
    get L st fs cp1 = get L st fs cp2 := by
  unfold get
  dsimp only
  rw [h]

theorem set_congr (L : String) (st : CacheState) (fs : FS) (cp1 cp2 : CacheParams)
    (a : String)
    (h : ∀ cfp root, generatePathToCacheFile fs cfp root cp1 =
      generatePathToCacheFile fs cfp root cp2) :
    set L st fs cp1 a = set L st fs cp2 a := by
  unfold set
  dsimp only
  rw [h]

theorem clear_congr (L : String) (st : CacheState) (fs : FS) (cp1 cp2 : CacheParams)
    (h : ∀ cfp root, generatePathToCacheFile fs cfp root cp1 =
      generatePathToCacheFile fs cfp root cp2) :
    clear L st fs cp1 = clear L st fs cp2 := by
  unfold clear generatePathToFileCacheFolder
  dsimp only
  rw [h]

end InFilesCache

/-! ## Claim C3 -/

/-- C3: when path resolution succeeds, a `get` whose resolved artifact
file is absent (the read throws `ENOENT`) returns the `null` sentinel
(`Except.ok none`), not an error; a read failing with any other system
error code propagates to the caller unchanged. -/
theorem get_cache_miss_returns_null_and_other_errors_propagate
    (L : String) (st : InFilesCache.CacheState) (fs : FS)
    (cp : InFilesCache.CacheParams) (p : String)
    (h : InFilesCache.generatePathToCacheFile fs st.cacheFolderPath
      (InFilesCache.effectiveRoot L st) cp = .ok p) :
    (fs p = .absent → (InFilesCache.get L st fs cp).res = .ok none) ∧
    (fs p = .ioError "ENOENT" → (InFilesCache.get L st fs cp).res = .ok none) ∧
    (∀ code, code ≠ "ENOENT" → fs p = .ioError code →
      (InFilesCache.get L st fs cp).res = .error (.system code)) := by
  have hg := InFilesCache.get_eq_of_ok L st fs cp p h
  refine ⟨?_, ?_, ?_⟩
  · intro hfs
    rw [hg]
    show InFilesCache.readFile fs p = .ok none
    unfold InFilesCache.readFile
    rw [hfs]
  · intro hfs
    rw [hg]
    show InFilesCache.readFile fs p = .ok none
    unfold InFilesCache.readFile
    rw [hfs]
    simp
  · intro code hcode hfs
    rw [hg]
    show InFilesCache.readFile fs p = .error (.system code)
    unfold InFilesCache.readFile
    rw [hfs]
    simp [hcode]

/-- Witness for C3: a concrete virtual request; with an empty
filesystem the artifact is absent and `get` yields `ok none`; with an
`EACCES` entry at the resolved path the error propagates. -/
theorem get_cache_miss_returns_null_and_other_errors_propagate_witness :
    (InFilesCache.get "/app" ⟨"cache", some "/app"⟩ (fun _ => FileNode.absent)
      ⟨"someFile.txt", some "some content", ".txt"⟩).res = .ok none ∧
    (InFilesCache.get "/app" ⟨"cache", some "/app"⟩
      (fun q => if q = "/app/cache/someFile/9893532233.txt"
        then FileNode.ioError "EACCES" else FileNode.absent)
      ⟨"someFile.txt", some "some content", ".txt"⟩).res =
      .error (.system "EACCES") :=
  ⟨(get_cache_miss_returns_null_and_other_errors_propagate "/app"
      ⟨"cache", some "/app"⟩ (fun _ => FileNode.absent)
      ⟨"someFile.txt", some "some content", ".txt"⟩
      "/app/cache/someFile/9893532233.txt" (by decide)).1 (by decide),
   (get_cache_miss_returns_null_and_other_errors_propagate "/app"
      ⟨"cache", some "/app"⟩
      (fun q => if q = "/app/cache/someFile/9893532233.txt"
        then FileNode.ioError "EACCES" else FileNode.absent)
      ⟨"someFile.txt", some "some content", ".txt"⟩
      "/app/cache/someFile/9893532233.txt" (by decide)).2.2 "EACCES"
      (by decide) (by decide)⟩

/-! ## Claim C4 -/

/-- C4 counterexample: the claim says a real-mode request whose source
file is missing fails with a dedicated `MissingSourceFile` error kind,
distinguishable from other failures by kind rather than message text.
The code executes `throw new Error(msg)`: the embedded run produces
the *generic* message-only error constructor — the normalized path
travels exclusively inside the message string, and there is no
dedicated error kind to test for. -/
theorem missing_file_error_is_plain_generic :
    (InFilesCache.get "/app" ⟨"cache", some "/app"⟩ (fun _ => FileNode.absent)
      ⟨"someFile.txt", none, ".txt"⟩).res =
      .error (.generic "There is no such a file: someFile.txt") := by
  decide

/-- C4 amended: for every real-mode request (no `fileContent`) whose
normalized source path is absent on disk, `get`, `set` and `clear` all
fail with the plain generic `Error` whose message is
`"There is no such a file: " ++ normalizedPath` — the path is carried
in the message text only, and the error has no dedicated kind. -/
theorem missing_source_error_is_generic_with_path
    (L : String) (st : InFilesCache.CacheState) (fs : FS)
    (filePath ext a : String)
    (h : fs (InFilesCache.absolutePathToRelative filePath
      (InFilesCache.effectiveRoot L st)) = .absent) :
    (InFilesCache.get L st fs ⟨filePath, none, ext⟩).res =
      .error (.generic ("There is no such a file: " ++
        InFilesCache.absolutePathToRelative filePath
          (InFilesCache.effectiveRoot L st))) ∧
    (InFilesCache.set L st fs ⟨filePath, none, ext⟩ a).res =
      .error (.generic ("There is no such a file: " ++
        InFilesCache.absolutePathToRelative filePath
          (InFilesCache.effectiveRoot L st))) ∧
    (InFilesCache.clear L st fs ⟨filePath, none, ext⟩).res =
      .error (.generic ("There is no such a file: " ++
        InFilesCache.absolutePathToRelative filePath
          (InFilesCache.effectiveRoot L st))) := by
  have hres := InFilesCache.resolve_missing fs st.cacheFolderPath
    (InFilesCache.effectiveRoot L st) ⟨filePath, none, ext⟩ rfl h
  exact ⟨by rw [InFilesCache.get_eq_of_error L st fs _ _ hres],
    by rw [InFilesCache.set_eq_of_error L st fs _ a _ hres],
    by rw [InFilesCache.clear_eq_of_error L st fs _ _ hres]⟩

/-- Witness for the amended C4 at a concrete missing real file. -/
theorem missing_source_error_is_generic_with_path_witness :
    (InFilesCache.get "/app" ⟨"cache", some "/app"⟩ (fun _ => FileNode.absent)
      ⟨"someFile.txt", none, ".txt"⟩).res =
      .error (.generic ("There is no such a file: " ++
        InFilesCache.absolutePathToRelative "someFile.txt"
          (InFilesCache.effectiveRoot "/app" ⟨"cache", some "/app"⟩))) ∧
    (InFilesCache.set "/app" ⟨"cache", some "/app"⟩ (fun _ => FileNode.absent)
      ⟨"someFile.txt", none, ".txt"⟩ "artifact").res =
      .error (.generic ("There is no such a file: " ++
        InFilesCache.absolutePathToRelative "someFile.txt"
          (InFilesCache.effectiveRoot "/app" ⟨"cache", some "/app"⟩))) ∧
    (InFilesCache.clear "/app" ⟨"cache", some "/app"⟩ (fun _ => FileNode.absent)
      ⟨"someFile.txt", none, ".txt"⟩).res =
      .error (.generic ("There is no such a file: " ++
        InFilesCache.absolutePathToRelative "someFile.txt"
          (InFilesCache.effectiveRoot "/app" ⟨"cache", some "/app"⟩))) :=
  missing_source_error_is_generic_with_path "/app" ⟨"cache", some "/app"⟩
    (fun _ => FileNode.absent) "someFile.txt" ".txt" "artifact" (by decide)

/-! ## Claim C10 -/

/-- C10: an empty-string `fileContent` is falsy, so every operation
treats it exactly like an absent `fileContent` (the whole operation
outcome coincides), and when the file on disk at the normalized path
is missing or empty the operation throws the missing-source-file
error. -/
theorem empty_content_treated_as_absent
    (L : String) (st : InFilesCache.CacheState) (fs : FS)
    (filePath ext a : String) :
    InFilesCache.get L st fs ⟨filePath, some "", ext⟩ =
      InFilesCache.get L st fs ⟨filePath, none, ext⟩ ∧
    InFilesCache.set L st fs ⟨filePath, some "", ext⟩ a =
      InFilesCache.set L st fs ⟨filePath, none, ext⟩ a ∧
    InFilesCache.clear L st fs ⟨filePath, some "", ext⟩ =
      InFilesCache.clear L st fs ⟨filePath, none, ext⟩ ∧
    ((fs (InFilesCache.absolutePathToRelative filePath
        (InFilesCache.effectiveRoot L st)) = .absent ∨
      fs (InFilesCache.absolutePathToRelative filePath
        (InFilesCache.effectiveRoot L st)) = .file "") →
      (InFilesCache.get L st fs ⟨filePath, some "", ext⟩).res =
        .error (.generic ("There is no such a file: " ++
          InFilesCache.absolutePathToRelative filePath
            (InFilesCache.effectiveRoot L st))) ∧
      (InFilesCache.set L st fs ⟨filePath, some "", ext⟩ a).res =
        .error (.generic ("There is no such a file: " ++
          InFilesCache.absolutePathToRelative filePath
            (InFilesCache.effectiveRoot L st))) ∧
      (InFilesCache.clear L st fs ⟨filePath, some "", ext⟩).res =
        .error (.generic ("There is no such a file: " ++
          InFilesCache.absolutePathToRelative filePath
            (InFilesCache.effectiveRoot L st)))) := by
  refine ⟨InFilesCache.get_congr L st fs _ _
      (fun cfp root => InFilesCache.resolve_empty_eq_none fs cfp root filePath ext),
    InFilesCache.set_congr L st fs _ _ a
      (fun cfp root => InFilesCache.resolve_empty_eq_none fs cfp root filePath ext),
    InFilesCache.clear_congr L st fs _ _
      (fun cfp root => InFilesCache.resolve_empty_eq_none fs cfp root filePath ext),
    ?_⟩
  intro hdisk
  have hread : InFilesCache.readFile fs (InFilesCache.absolutePathToRelative
      filePath (InFilesCache.effectiveRoot L st)) =
      .ok (match fs (InFilesCache.absolutePathToRelative filePath
        (InFilesCache.effectiveRoot L st)) with
        | .file c => some c
        | _ => none) := by
    rcases hdisk with hd | hd <;>
      (unfold InFilesCache.readFile; rw [hd])
  have hfalsy : InFilesCache.jsTruthy (match fs (InFilesCache.absolutePathToRelative
      filePath (InFilesCache.effectiveRoot L st)) with
      | .file c => some c
      | _ => none) = false := by
    rcases hdisk with hd | hd <;> rw [hd] <;> rfl
  have hres := InFilesCache.resolve_falsy fs st.cacheFolderPath
    (InFilesCache.effectiveRoot L st) ⟨filePath, some "", ext⟩ rfl _ hread hfalsy
  exact ⟨by rw [InFilesCache.get_eq_of_error L st fs _ _ hres],
    by rw [InFilesCache.set_eq_of_error L st fs _ a _ hres],
    by rw [InFilesCache.clear_eq_of_error L st fs _ _ hres]⟩

/-- Witness for C10: concrete instance with the source file absent on
disk. -/
theorem empty_content_treated_as_absent_witness :
    InFilesCache.get "/app" ⟨"cache", some "/app"⟩ (fun _ => FileNode.absent)
        ⟨"someFile.txt", some "", ".txt"⟩ =
      InFilesCache.get "/app" ⟨"cache", some "/app"⟩ (fun _ => FileNode.absent)
        ⟨"someFile.txt", none, ".txt"⟩ ∧
    (InFilesCache.get "/app" ⟨"cache", some "/app"⟩ (fun _ => FileNode.absent)
        ⟨"someFile.txt", some "", ".txt"⟩).res =
      .error (.generic ("There is no such a file: " ++
        InFilesCache.absolutePathToRelative "someFile.txt"
          (InFilesCache.effectiveRoot "/app" ⟨"cache", some "/app"⟩))) :=
  ⟨(empty_content_treated_as_absent "/app" ⟨"cache", some "/app"⟩
      (fun _ => FileNode.absent) "someFile.txt" ".txt" "a").1,
   ((empty_content_treated_as_absent "/app" ⟨"cache", some "/app"⟩
      (fun _ => FileNode.absent) "someFile.txt" ".txt" "a").2.2.2
      (Or.inl (by decide))).1⟩

/-! ## Claim C9 -/

/-- C9: the project root is resolved at most once per instance.  From
a fresh instance (memo field unset) each of `get`, `set`, `clear`
invokes the locator and stores its answer; from then on every
operation — whatever the locator would now answer — leaves the stored
value unchanged and does not invoke the locator again. -/
theorem app_root_resolved_once_and_memoized
    (L : String) (st : InFilesCache.CacheState) (fs : FS)
    (cp : InFilesCache.CacheParams) (a : String)
    (hL : L ≠ "") (hfresh : st.appRootPath = none) :
    ((InFilesCache.get L st fs cp).st = { st with appRootPath := some L } ∧
      (InFilesCache.get L st fs cp).invoked = true) ∧
    ((InFilesCache.set L st fs cp a).st = { st with appRootPath := some L } ∧
      (InFilesCache.set L st fs cp a).invoked = true) ∧
    ((InFilesCache.clear L st fs cp).st = { st with appRootPath := some L } ∧
      (InFilesCache.clear L st fs cp).invoked = true) ∧
    (∀ (L' : String) (fs' : FS) (cp' : InFilesCache.CacheParams) (a' : String),
      ((InFilesCache.get L' { st with appRootPath := some L } fs' cp').st =
          { st with appRootPath := some L } ∧
        (InFilesCache.get L' { st with appRootPath := some L } fs' cp').invoked =
          false) ∧
      ((InFilesCache.set L' { st with appRootPath := some L } fs' cp' a').st =
          { st with appRootPath := some L } ∧
        (InFilesCache.set L' { st with appRootPath := some L } fs' cp' a').invoked =
          false) ∧
      ((InFilesCache.clear L' { st with appRootPath := some L } fs' cp').st =
          { st with appRootPath := some L } ∧
        (InFilesCache.clear L' { st with appRootPath := some L } fs' cp').invoked =
          false)) := by
  have hfreshG : InFilesCache.getAppRootFolderPath L st =
      (L, { st with appRootPath := some L }, true) := by
    unfold InFilesCache.getAppRootFolderPath
    simp [InFilesCache.jsTruthy, hfresh]
  have hmemoG : ∀ L', InFilesCache.getAppRootFolderPath L'
      { st with appRootPath := some L } =
      (L, { st with appRootPath := some L }, false) := by
    intro L'
    unfold InFilesCache.getAppRootFolderPath
    simp [InFilesCache.jsTruthy, hL]
  have hget : ∀ (Lx : String) (stx : InFilesCache.CacheState) (fsx : FS)
      (cpx : InFilesCache.CacheParams),
      (InFilesCache.get Lx stx fsx cpx).st =
        (InFilesCache.getAppRootFolderPath Lx stx).2.1 ∧
      (InFilesCache.get Lx stx fsx cpx).invoked =
        (InFilesCache.getAppRootFolderPath Lx stx).2.2 := by
    intro Lx stx fsx cpx
    unfold InFilesCache.get
    dsimp only
    constructor <;> (split <;> rfl)
  have hset : ∀ (Lx : String) (stx : InFilesCache.CacheState) (fsx : FS)
      (cpx : InFilesCache.CacheParams) (ax : String),
      (InFilesCache.set Lx stx fsx cpx ax).st =
        (InFilesCache.getAppRootFolderPath Lx stx).2.1 ∧
      (InFilesCache.set Lx stx fsx cpx ax).invoked =
        (InFilesCache.getAppRootFolderPath Lx stx).2.2 := by
    intro Lx stx fsx cpx ax
    unfold InFilesCache.set
    dsimp only
    constructor <;> (split <;> rfl)
  have hclear : ∀ (Lx : String) (stx : InFilesCache.CacheState) (fsx : FS)
      (cpx : InFilesCache.CacheParams),
      (InFilesCache.clear Lx stx fsx cpx).st =
        (InFilesCache.getAppRootFolderPath Lx stx).2.1 ∧
      (InFilesCache.clear Lx stx fsx cpx).invoked =
        (InFilesCache.getAppRootFolderPath Lx stx).2.2 := by
    intro Lx stx fsx cpx
    unfold InFilesCache.clear
    dsimp only
    constructor <;> (split <;> rfl)
  refine ⟨⟨?_, ?_⟩, ⟨?_, ?_⟩, ⟨?_, ?_⟩, ?_⟩
  · rw [(hget L st fs cp).1, hfreshG]
  · rw [(hget L st fs cp).2, hfreshG]
  · rw [(hset L st fs cp a).1, hfreshG]
  · rw [(hset L st fs cp a).2, hfreshG]
  · rw [(hclear L st fs cp).1, hfreshG]
  · rw [(hclear L st fs cp).2, hfreshG]
  · intro L' fs' cp' a'
    refine ⟨⟨?_, ?_⟩, ⟨?_, ?_⟩, ⟨?_, ?_⟩⟩
    · rw [(hget L' _ fs' cp').1, hmemoG]
    · rw [(hget L' _ fs' cp').2, hmemoG]
    · rw [(hset L' _ fs' cp' a').1, hmemoG]
    · rw [(hset L' _ fs' cp' a').2, hmemoG]
    · rw [(hclear L' _ fs' cp').1, hmemoG]
    · rw [(hclear L' _ fs' cp').2, hmemoG]

/-- Witness for C9 at a concrete fresh instance. -/
theorem app_root_resolved_once_and_memoized_witness :
    ((InFilesCache.get "/app" ⟨"cache", none⟩ (fun _ => FileNode.absent)
        ⟨"f.txt", some "x", ".txt"⟩).st =
      { cacheFolderPath := "cache", appRootPath := (some "/app" : Option String) } ∧
      (InFilesCache.get "/app" ⟨"cache", none⟩ (fun _ => FileNode.absent)
        ⟨"f.txt", some "x", ".txt"⟩).invoked = true) ∧
    ((InFilesCache.get "/elsewhere" ⟨"cache", some "/app"⟩
        (fun _ => FileNode.absent) ⟨"f.txt", some "x", ".txt"⟩).st =
      { cacheFolderPath := "cache", appRootPath := (some "/app" : Option String) } ∧
      (InFilesCache.get "/elsewhere" ⟨"cache", some "/app"⟩
        (fun _ => FileNode.absent) ⟨"f.txt", some "x", ".txt"⟩).invoked = false) :=
  ⟨(app_root_resolved_once_and_memoized "/app" ⟨"cache", none⟩
      (fun _ => FileNode.absent) ⟨"f.txt", some "x", ".txt"⟩ "a"
      (by decide) rfl).1,
   ((app_root_resolved_once_and_memoized "/app" ⟨"cache", none⟩
      (fun _ => FileNode.absent) ⟨"f.txt", some "x", ".txt"⟩ "a"
      (by decide) rfl).2.2.2 "/elsewhere" (fun _ => FileNode.absent)
      ⟨"f.txt", some "x", ".txt"⟩ "a").1⟩

/-! ## Claim C8 -/

/-- C8 counterexample: the claim quantifies over every request in
which `fileContent` is supplied.  Supplying the *empty* string is
falsy, so the code falls back to reading `filePath` from disk: two
filesystems that differ only in the file at `filePath` ("f.txt" holds
"x" in the first, is absent in the second) give observably different
outcomes (`ok none` versus the missing-file error). -/
theorem virtual_get_with_empty_content_reads_disk :
    (InFilesCache.get "/app" ⟨"cache", some "/app"⟩
        (fun q => if q = "f.txt" then FileNode.file "x" else FileNode.absent)
        ⟨"f.txt", some "", ".txt"⟩).res = .ok none ∧
    (InFilesCache.get "/app" ⟨"cache", some "/app"⟩ (fun _ => FileNode.absent)
        ⟨"f.txt", some "", ".txt"⟩).res =
      .error (.generic "There is no such a file: f.txt") := by
  constructor
  · decide
  · decide

/-- C8 amended: for a request with *nonempty* (truthy) `fileContent`,
`get` never reads the source file: its outcome depends on the
filesystem only through the resolved artifact path, so any two
filesystems agreeing at that single path (wherever else they differ,
including at `filePath`) give identical results, namely the wrapped
read of the artifact slot. -/
theorem virtual_get_depends_only_on_artifact_slot
    (L : String) (st : InFilesCache.CacheState) (fs1 fs2 : FS)
    (cp : InFilesCache.CacheParams) (p : String)
    (hvirt : InFilesCache.jsTruthy cp.fileContent = true)
    (hres : InFilesCache.generatePathToCacheFile fs1 st.cacheFolderPath
      (InFilesCache.effectiveRoot L st) cp = .ok p)
    (hagree : fs1 p = fs2 p) :
    (InFilesCache.get L st fs1 cp).res = (InFilesCache.get L st fs2 cp).res ∧
    (InFilesCache.get L st fs1 cp).res = InFilesCache.readFile fs1 p := by
  have hres2 : InFilesCache.generatePathToCacheFile fs2 st.cacheFolderPath
      (InFilesCache.effectiveRoot L st) cp = .ok p :=
    (InFilesCache.resolve_virtual fs2 _ _ _ hvirt).trans
      ((InFilesCache.resolve_virtual fs1 _ _ _ hvirt).symm.trans hres)
  rw [InFilesCache.get_eq_of_ok L st fs1 cp p hres,
    InFilesCache.get_eq_of_ok L st fs2 cp p hres2]
  exact ⟨InFilesCache.readFile_congr fs2 fs1 p hagree, rfl⟩

/-- Witness for the amended C8: truthy content, two filesystems that
agree (both absent) at the artifact path but differ at the source
path. -/
theorem virtual_get_depends_only_on_artifact_slot_witness :
    (InFilesCache.get "/app" ⟨"cache", some "/app"⟩
        (fun q => if q = "f.txt" then FileNode.file "z" else FileNode.absent)
        ⟨"f.txt", some "x", ".txt"⟩).res =
      (InFilesCache.get "/app" ⟨"cache", some "/app"⟩ (fun _ => FileNode.absent)
        ⟨"f.txt", some "x", ".txt"⟩).res ∧
    (InFilesCache.get "/app" ⟨"cache", some "/app"⟩
        (fun q => if q = "f.txt" then FileNode.file "z" else FileNode.absent)
        ⟨"f.txt", some "x", ".txt"⟩).res =
      InFilesCache.readFile
        (fun q => if q = "f.txt" then FileNode.file "z" else FileNode.absent)
        "/app/cache/f/9dd4e46126.txt" :=
  virtual_get_depends_only_on_artifact_slot "/app" ⟨"cache", some "/app"⟩
    (fun q => if q = "f.txt" then FileNode.file "z" else FileNode.absent)
    (fun _ => FileNode.absent) ⟨"f.txt", some "x", ".txt"⟩
    "/app/cache/f/9dd4e46126.txt" (by decide) (by decide) (by decide)

/-! ## Claim C1 -/

/-- C1: round trip.  If the cache-file path for a request resolves to
`p`, then after `set(req, a)` an immediate `get(req)` on the same
instance returns exactly `a`: both operations resolve the same path,
`set` writes the artifact there and `get` reads it back.  (Side
conditions: the instance's effective root is nonempty, and in
real-content mode the normalized source path must differ from the
artifact path, since overwriting the source would change the resolved
slot.) -/
theorem set_then_get_returns_artifact
    (L : String) (st : InFilesCache.CacheState) (fs : FS)
    (cp : InFilesCache.CacheParams) (a p : String)
    (hroot : InFilesCache.effectiveRoot L st ≠ "")
    (hres : InFilesCache.generatePathToCacheFile fs st.cacheFolderPath
      (InFilesCache.effectiveRoot L st) cp = .ok p)
    (hmode : InFilesCache.jsTruthy cp.fileContent = true ∨
      InFilesCache.absolutePathToRelative cp.filePath
        (InFilesCache.effectiveRoot L st) ≠ p) :
    (InFilesCache.set L st fs cp a).res = .ok () ∧
    (InFilesCache.get L (InFilesCache.set L st fs cp a).st
      (InFilesCache.set L st fs cp a).fs cp).res = .ok (some a) := by
  have hset := InFilesCache.set_eq_of_ok L st fs cp a p hres
  rw [hset]
  refine ⟨rfl, ?_⟩
  have hroot1 : InFilesCache.effectiveRoot L
      ((InFilesCache.getAppRootFolderPath L st).2.1) =
      InFilesCache.effectiveRoot L st :=
    InFilesCache.effectiveRoot_after L L st hroot
  have hcf1 : ((InFilesCache.getAppRootFolderPath L st).2.1).cacheFolderPath =
      st.cacheFolderPath := InFilesCache.getApp_cacheFolderPath L st
  have hres1 : InFilesCache.generatePathToCacheFile (outputFileSync p a fs)
      ((InFilesCache.getAppRootFolderPath L st).2.1).cacheFolderPath
      (InFilesCache.effectiveRoot L ((InFilesCache.getAppRootFolderPath L st).2.1))
      cp = .ok p := by
    rw [hroot1, hcf1]
    rcases hmode with hv | hnp
    · rw [InFilesCache.resolve_virtual (outputFileSync p a fs) _ _ _ hv,
        ← InFilesCache.resolve_virtual fs _ _ _ hv]
      exact hres
    · rw [InFilesCache.resolve_fs_agree fs (outputFileSync p a fs) _ _ cp
        (by unfold outputFileSync; rw [if_neg hnp])]
      exact hres
  rw [InFilesCache.get_eq_of_ok L _ _ cp p hres1]
  show InFilesCache.readFile (outputFileSync p a fs) p = .ok (some a)
  unfold InFilesCache.readFile outputFileSync
  simp

/-- Witness for C1 at the spec's end-to-end example: set the artifact
"compiled" for a virtual file, read it straight back. -/
theorem set_then_get_returns_artifact_witness :
    (InFilesCache.set "/app" ⟨"cache", some "/app"⟩ (fun _ => FileNode.absent)
      ⟨"someFile.txt", some "some content", ".txt"⟩ "compiled").res = .ok () ∧
    (InFilesCache.get "/app"
      (InFilesCache.set "/app" ⟨"cache", some "/app"⟩ (fun _ => FileNode.absent)
        ⟨"someFile.txt", some "some content", ".txt"⟩ "compiled").st
      (InFilesCache.set "/app" ⟨"cache", some "/app"⟩ (fun _ => FileNode.absent)
        ⟨"someFile.txt", some "some content", ".txt"⟩ "compiled").fs
      ⟨"someFile.txt", some "some content", ".txt"⟩).res = .ok (some "compiled") :=
  set_then_get_returns_artifact "/app" ⟨"cache", some "/app"⟩
    (fun _ => FileNode.absent) ⟨"someFile.txt", some "some content", ".txt"⟩
    "compiled" "/app/cache/someFile/9893532233.txt" (by decide) (by decide)
    (Or.inl (by decide))

/-! ## Path-structure lemmas -/

theorem splitSlash_ne_nil (l : List Char) : splitSlash l ≠ [] := by
  cases l with
  | nil => simp [splitSlash]
  | cons c r =>
    unfold splitSlash
    cases h : splitSlash r with
    | nil => simp
    | cons t ts =>
      dsimp only
      split <;> simp

theorem splitSlash_append (a b : List Char) :
    splitSlash (a ++ '/' :: b) = splitSlash a ++ splitSlash b := by
  induction a with
  | nil =>
    cases h : splitSlash b with
    | nil => exact absurd h (splitSlash_ne_nil b)
    | cons t ts => simp [splitSlash, h]
  | cons c a' ih =>
    cases h : splitSlash a' with
    | nil => exact absurd h (splitSlash_ne_nil a')
    | cons t ts =>
      by_cases hc : c = '/'
      · subst hc
        simp [splitSlash, h, ih]
      · simp [splitSlash, h, ih, hc]

theorem splitSlash_no_slash (l : List Char) (h : '/' ∉ l) : splitSlash l = [l] := by
  induction l with
  | nil => rfl
  | cons c r ih =>
    have hc : ¬ c = '/' := fun hc => h (hc ▸ List.mem_cons_self c r)
    unfold splitSlash
    rw [ih (fun hm => h (List.mem_cons_of_mem c hm))]
    simp [hc]

theorem joinSlash_append_singleton (xs : List (List Char)) (y : List Char)
    (h : xs ≠ []) : joinSlash (xs ++ [y]) = joinSlash xs ++ '/' :: y := by
  induction xs with
  | nil => exact absurd rfl h
  | cons x xs' ih =>
    cases hxs : xs' with
    | nil => simp [joinSlash]
    | cons z zs =>
      rw [hxs] at ih
      have : joinSlash ((x :: z :: zs) ++ [y]) = x ++ '/' :: joinSlash ((z :: zs) ++ [y]) := rfl
      rw [this, ih (by simp)]
      simp [joinSlash]

theorem joinSlash_append_ne_nil (xs : List (List Char)) (y : List Char)
    (hy : y ≠ []) : joinSlash (xs ++ [y]) ≠ [] := by
  cases hxs : xs with
  | nil => simpa [joinSlash]
  | cons x xs' =>
    rw [joinSlash_append_singleton _ _ (by simp)]
    simp

theorem normSegsAux_clean (ab : Bool) (acc : List (List Char))
    (segs : List (List Char)) (h : ∀ s ∈ segs, s = [] ∨ goodSegC s) :
    normSegsAux ab acc segs = acc.reverse ++ segs.filter (· ≠ []) := by
  induction segs generalizing acc with
  | nil => simp [normSegsAux]
  | cons s rest ih =>
    rcases h s (List.mem_cons_self s rest) with hs | hs
    · subst hs
      rw [show normSegsAux ab acc ([] :: rest) = normSegsAux ab acc rest from by
        simp [normSegsAux]]
      rw [ih acc (fun t ht => h t (List.mem_cons_of_mem _ ht))]
      simp
    · obtain ⟨h1, h2, h3⟩ := hs
      rw [show normSegsAux ab acc (s :: rest) = normSegsAux ab (s :: acc) rest from by
        simp [normSegsAux, h1, h2, h3]]
      rw [ih (s :: acc) (fun t ht => h t (List.mem_cons_of_mem _ ht))]
      simp [h1, List.filter_cons]

theorem dropWhile_append_all (p : Char → Bool) (a b : List Char)
    (h : ∀ x ∈ a, p x = true) :
    List.dropWhile p (a ++ b) = List.dropWhile p b := by
  induction a with
  | nil => rfl
  | cons x a' ih =>
    simp only [List.cons_append, List.dropWhile_cons,
      h x (List.mem_cons_self x a'), if_true]
    exact ih (fun y hy => h y (List.mem_cons_of_mem _ hy))

theorem joinSlash_filter_ne_nil (xs : List (List Char))
    (hfil : xs.filter (· ≠ []) ≠ []) :
    joinSlash (xs.filter (· ≠ [])) ≠ [] := by
  cases hx : xs.filter (· ≠ []) with
  | nil => exact absurd hx hfil
  | cons x ys =>
    have hxne : x ≠ [] := by
      have hmem : x ∈ xs.filter (· ≠ []) := by
        rw [hx]
        exact List.mem_cons_self _ _
      simpa using (List.mem_filter.mp hmem).2
    cases ys with
    | nil => simpa [joinSlash]
    | cons y zs => simp [joinSlash]

theorem normalizeChars_clean (l : List Char)
    (hhead : l.head? = some '/')
    (hclean : ∀ s ∈ splitSlash l, s = [] ∨ goodSegC s)
    (hlast : l.getLast? ≠ some '/')
    (hfil : (splitSlash l).filter (· ≠ []) ≠ []) :
    normalizeChars l = '/' :: joinSlash ((splitSlash l).filter (· ≠ [])) := by
  have hne : l ≠ [] := by
    intro h0
    rw [h0] at hhead
    simp at hhead
  unfold normalizeChars
  rw [if_neg hne]
  dsimp only
  have hbody : joinSlash (normSegsAux (!decide (l.head? = some '/')) []
      (splitSlash l)) = joinSlash ((splitSlash l).filter (· ≠ [])) := by
    rw [normSegsAux_clean _ _ _ hclean]
    simp
  rw [hbody]
  rw [if_pos hhead, if_neg (joinSlash_filter_ne_nil _ hfil), if_neg hlast]
  simp

theorem dirnameChars_slot (J n : List Char) (hJ : J ≠ []) (hn1 : n ≠ [])
    (hns : '/' ∉ n) :
    dirnameChars ('/' :: (J ++ '/' :: n)) = '/' :: J := by
  obtain ⟨m, ms, hnrev⟩ : ∃ m ms, n.reverse = m :: ms := by
    cases hx : n.reverse with
    | nil => exact absurd (List.reverse_eq_nil_iff.mp hx) hn1
    | cons m ms => exact ⟨m, ms, rfl⟩
  have hm : m ≠ '/' := by
    intro he
    apply hns
    have hmem : m ∈ n.reverse := by
      rw [hnrev]
      exact List.mem_cons_self m ms
    rw [List.mem_reverse] at hmem
    rwa [he] at hmem
  unfold dirnameChars
  dsimp only
  have hrev : (J ++ '/' :: n).reverse = n.reverse ++ '/' :: J.reverse := by
    rw [List.reverse_append, List.reverse_cons]
    simp
  rw [hrev]
  have ht1 : List.dropWhile (fun x => decide (x = '/'))
      (n.reverse ++ '/' :: J.reverse) = n.reverse ++ '/' :: J.reverse := by
    rw [hnrev]
    simp only [List.cons_append, List.dropWhile_cons]
    simp [hm]
  rw [ht1]
  have ht2 : List.dropWhile (fun x => decide (x ≠ '/'))
      (n.reverse ++ '/' :: J.reverse) = '/' :: J.reverse := by
    rw [dropWhile_append_all _ _ _ (fun x hx => by
      simp only [decide_eq_true_eq]
      intro he
      exact hns (by rw [← he]; exact List.mem_reverse.mp hx))]
    simp [List.dropWhile_cons]
  rw [ht2]
  have hJr : ¬ J.reverse = [] := by simpa using hJ
  simp [hJr]

theorem pathJoinChars_cache (r c F n : List Char)
    (hr : r.head? = some '/')
    (hgr : ∀ s ∈ splitSlash r, s = [] ∨ goodSegC s)
    (hgc : ∀ s ∈ splitSlash c, s = [] ∨ goodSegC s)
    (hF : goodSegC F) (hFs : '/' ∉ F)
    (hn : goodSegC n) (hns : '/' ∉ n) :
    pathJoinChars [r, c, F, n] =
      '/' :: (joinSlash (((splitSlash r ++ splitSlash c).filter (· ≠ [])) ++ [F])
        ++ '/' :: n) := by
  obtain ⟨hF1, hF2, hF3⟩ := hF
  obtain ⟨hn1, hn2, hn3⟩ := hn
  obtain ⟨rt, rfl⟩ : ∃ rt, r = '/' :: rt := by
    cases r with
    | nil => simp at hr
    | cons a t =>
      have ha : a = '/' := by simpa using hr
      exact ⟨t, by rw [ha]⟩
  obtain ⟨m, ms, hnrev⟩ : ∃ m ms, n.reverse = m :: ms := by
    cases hx : n.reverse with
    | nil => exact absurd (List.reverse_eq_nil_iff.mp hx) hn1
    | cons m ms => exact ⟨m, ms, rfl⟩
  have hnlast : n.getLast? = some m := by
    have h1 := List.getLast?_reverse n.reverse
    rw [List.reverse_reverse, hnrev] at h1
    simpa using h1
  have hm : m ≠ '/' := by
    intro he
    apply hns
    have hmem : m ∈ n.reverse := by
      rw [hnrev]
      exact List.mem_cons_self m ms
    rw [List.mem_reverse] at hmem
    rwa [he] at hmem
  by_cases hc : c = []
  · subst hc
    have hred : pathJoinChars [('/' :: rt), [], F, n] =
        normalizeChars (joinSlash [('/' :: rt), F, n]) := by
      unfold pathJoinChars
      have hfilter : [('/' :: rt), [], F, n].filter (· ≠ []) =
          [('/' :: rt), F, n] := by
        simp [hF1, hn1]
      rw [hfilter]
    rw [hred]
    have hj : joinSlash [('/' :: rt), F, n] =
        ('/' :: rt) ++ '/' :: (F ++ '/' :: n) := rfl
    rw [hj]
    have hsplit : splitSlash (('/' :: rt) ++ '/' :: (F ++ '/' :: n)) =
        splitSlash ('/' :: rt) ++ ([F] ++ [n]) := by
      rw [splitSlash_append, splitSlash_append,
        splitSlash_no_slash F hFs, splitSlash_no_slash n hns]
    have hhead : (('/' :: rt) ++ '/' :: (F ++ '/' :: n)).head? = some '/' := by
      simp
    have hclean : ∀ s ∈ splitSlash (('/' :: rt) ++ '/' :: (F ++ '/' :: n)),
        s = [] ∨ goodSegC s := by
      intro s hs
      rw [hsplit] at hs
      rcases List.mem_append.mp hs with hs | hs
      · exact hgr s hs
      · rcases List.mem_append.mp hs with hs | hs
        · rw [List.mem_singleton.mp hs]
          exact Or.inr ⟨hF1, hF2, hF3⟩
        · rw [List.mem_singleton.mp hs]
          exact Or.inr ⟨hn1, hn2, hn3⟩
    have hlast : (('/' :: rt) ++ '/' :: (F ++ '/' :: n)).getLast? ≠ some '/' := by
      have hassoc : ('/' :: rt) ++ '/' :: (F ++ '/' :: n) =
          (('/' :: rt) ++ '/' :: F ++ ['/']) ++ n := by
        simp
      rw [hassoc, List.getLast?_append, hnlast]
      simp [hm]
    have hfil : (splitSlash (('/' :: rt) ++ '/' :: (F ++ '/' :: n))).filter
        (· ≠ []) ≠ [] := by
      rw [hsplit]
      simp [List.filter_append, hn1]
    rw [normalizeChars_clean _ hhead hclean hlast hfil, hsplit]
    have hsc : splitSlash ([] : List Char) = [[]] := rfl
    rw [hsc]
    have hfe : (splitSlash ('/' :: rt) ++ [([] : List Char)]).filter (· ≠ []) =
        (splitSlash ('/' :: rt)).filter (· ≠ []) := by
      simp [List.filter_append]
    rw [hfe]
    have hfa : (splitSlash ('/' :: rt) ++ ([F] ++ [n])).filter (· ≠ []) =
        ((splitSlash ('/' :: rt)).filter (· ≠ []) ++ [F]) ++ [n] := by
      simp [List.filter_append, hF1, hn1]
    rw [hfa, joinSlash_append_singleton _ _ (by simp)]
  · have hred : pathJoinChars [('/' :: rt), c, F, n] =
        normalizeChars (joinSlash [('/' :: rt), c, F, n]) := by
      unfold pathJoinChars
      have hfilter : [('/' :: rt), c, F, n].filter (· ≠ []) =
          [('/' :: rt), c, F, n] := by
        simp [hc, hF1, hn1]
      rw [hfilter]
    rw [hred]
    have hj : joinSlash [('/' :: rt), c, F, n] =
        ('/' :: rt) ++ '/' :: (c ++ '/' :: (F ++ '/' :: n)) := rfl
    rw [hj]
    have hsplit : splitSlash (('/' :: rt) ++ '/' :: (c ++ '/' :: (F ++ '/' :: n))) =
        splitSlash ('/' :: rt) ++ (splitSlash c ++ ([F] ++ [n])) := by
      rw [splitSlash_append, splitSlash_append, splitSlash_append,
        splitSlash_no_slash F hFs, splitSlash_no_slash n hns]
    have hhead : (('/' :: rt) ++ '/' :: (c ++ '/' :: (F ++ '/' :: n))).head? =
        some '/' := by
      simp
    have hclean : ∀ s ∈ splitSlash (('/' :: rt) ++ '/' :: (c ++ '/' :: (F ++ '/' :: n))),
        s = [] ∨ goodSegC s := by
      intro s hs
      rw [hsplit] at hs
      rcases List.mem_append.mp hs with hs | hs
      · exact hgr s hs
      · rcases List.mem_append.mp hs with hs | hs
        · exact hgc s hs
        · rcases List.mem_append.mp hs with hs | hs
          · rw [List.mem_singleton.mp hs]
            exact Or.inr ⟨hF1, hF2, hF3⟩
          · rw [List.mem_singleton.mp hs]
            exact Or.inr ⟨hn1, hn2, hn3⟩
    have hlast : (('/' :: rt) ++ '/' :: (c ++ '/' :: (F ++ '/' :: n))).getLast? ≠
        some '/' := by
      have hassoc : ('/' :: rt) ++ '/' :: (c ++ '/' :: (F ++ '/' :: n)) =
          (('/' :: rt) ++ '/' :: c ++ '/' :: F ++ ['/']) ++ n := by
        simp
      rw [hassoc, List.getLast?_append, hnlast]
      simp [hm]
    have hfil : (splitSlash (('/' :: rt) ++ '/' :: (c ++ '/' :: (F ++ '/' :: n)))).filter
        (· ≠ []) ≠ [] := by
      rw [hsplit]
      simp [List.filter_append, hn1]
    rw [normalizeChars_clean _ hhead hclean hlast hfil, hsplit]
    have hfa : (splitSlash ('/' :: rt) ++ (splitSlash c ++ ([F] ++ [n]))).filter
        (· ≠ []) =
        (((splitSlash ('/' :: rt) ++ splitSlash c).filter (· ≠ [])) ++ [F]) ++ [n] := by
      simp [List.filter_append, hF1, hn1]
    rw [hfa, joinSlash_append_singleton _ _ (by simp)]

theorem strExt (s t : String) (h : s.data = t.data) : s = t := by
  cases s
  cases t
  exact congrArg String.mk (by simpa using h)

theorem cacheFileName_goodSeg (c e : String) (he : '/' ∉ e.data) :
    goodSegC (InFilesCache.generateCacheFileName c e).data ∧
    '/' ∉ (InFilesCache.generateCacheFileName c e).data := by
  have hdata : (InFilesCache.generateCacheFileName c e).data =
      (InFilesCache.generateHash c).data ++ e.data := String.data_append _ _
  have hlen : (InFilesCache.generateHash c).data.length = 10 := generateHash_length c
  have hglen : (InFilesCache.generateCacheFileName c e).data.length =
      10 + e.data.length := by
    rw [hdata, List.length_append, hlen]
  constructor
  · refine ⟨?_, ?_, ?_⟩ <;> intro h0 <;> rw [h0] at hglen <;> simp at hglen <;> omega
  · rw [hdata]
    intro hmem
    rcases List.mem_append.mp hmem with h | h
    · exact generateHash_no_slash c h
    · exact he h

/-! ## Claim C6 -/

/-- C6: whole-file invalidation.  After `set` for `(filePath, cA)` and
`set` for `(filePath, cB)` on the same instance, `clear` with
`(filePath, cA)` removes the per-file cache folder — whose location
depends only on `filePath`, not on the content — so a subsequent `get`
for either revision returns the absence sentinel; and `clear` is a
no-op on a filesystem where nothing exists at or under that folder.
Side conditions: the resolved root is a clean nonempty absolute path,
the cache-folder segments are clean, the per-file folder name is a
normal path segment, the extension contains no separator, and both
contents are nonempty (truthy). -/
theorem clear_removes_whole_file_cache_folder
    (L : String) (st : InFilesCache.CacheState) (fs : FS)
    (filePath ext cA cB aA aB r : String)
    (hrdef : InFilesCache.effectiveRoot L st = r)
    (hroot : r ≠ "")
    (habs : r.data.head? = some '/')
    (hgr : ∀ s ∈ splitSlash r.data, s = [] ∨ goodSegC s)
    (hgc : ∀ s ∈ splitSlash
      (InFilesCache.absolutePathToRelative st.cacheFolderPath r).data,
      s = [] ∨ goodSegC s)
    (hFg : goodSegC (InFilesCache.generateCacheFolderName
      (InFilesCache.absolutePathToRelative filePath r)).data)
    (hFsl : '/' ∉ (InFilesCache.generateCacheFolderName
      (InFilesCache.absolutePathToRelative filePath r)).data)
    (hext : '/' ∉ ext.data)
    (hA : cA ≠ "") (hB : cB ≠ "") :
    let reqA : InFilesCache.CacheParams := ⟨filePath, some cA, ext⟩
    let reqB : InFilesCache.CacheParams := ⟨filePath, some cB, ext⟩
    let o1 := InFilesCache.set L st fs reqA aA
    let o2 := InFilesCache.set L o1.st o1.fs reqB aB
    let o3 := InFilesCache.clear L o2.st o2.fs reqA
    o3.res = .ok () ∧
    (InFilesCache.get L o3.st o3.fs reqA).res = .ok none ∧
    (InFilesCache.get L o3.st o3.fs reqB).res = .ok none ∧
    InFilesCache.generatePathToFileCacheFolder o2.fs st.cacheFolderPath r reqA =
      InFilesCache.generatePathToFileCacheFolder o2.fs st.cacheFolderPath r reqB ∧
    (∀ (fs0 : FS) (folder : String),
      InFilesCache.generatePathToFileCacheFolder fs0 st.cacheFolderPath r reqA =
        .ok folder →
      (∀ q : String, (q = folder ∨
        (folder ++ "/").data.isPrefixOf q.data = true) → fs0 q = FileNode.absent) →
      ∀ q : String, (InFilesCache.clear L st fs0 reqA).fs q = fs0 q) := by
  intro reqA reqB o1 o2 o3
  have hvA : InFilesCache.jsTruthy reqA.fileContent = true := by
    simp [InFilesCache.jsTruthy, reqA, hA]
  have hvB : InFilesCache.jsTruthy reqB.fileContent = true := by
    simp [InFilesCache.jsTruthy, reqB, hB]
  have hrne : InFilesCache.effectiveRoot L st ≠ "" := by rw [hrdef]; exact hroot
  -- resolved cache-file paths (independent of the filesystem)
  have hresA : ∀ fsx : FS, InFilesCache.generatePathToCacheFile fsx
      st.cacheFolderPath r reqA =
      .ok (pathJoin [r, InFilesCache.absolutePathToRelative st.cacheFolderPath r,
        InFilesCache.generateCacheFolderName
          (InFilesCache.absolutePathToRelative filePath r),
        InFilesCache.generateCacheFileName cA ext]) := fun fsx => by
    rw [InFilesCache.resolve_virtual fsx _ _ _ hvA]
    rfl
  have hresB : ∀ fsx : FS, InFilesCache.generatePathToCacheFile fsx
      st.cacheFolderPath r reqB =
      .ok (pathJoin [r, InFilesCache.absolutePathToRelative st.cacheFolderPath r,
        InFilesCache.generateCacheFolderName
          (InFilesCache.absolutePathToRelative filePath r),
        InFilesCache.generateCacheFileName cB ext]) := fun fsx => by
    rw [InFilesCache.resolve_virtual fsx _ _ _ hvB]
    rfl
  set cRel := InFilesCache.absolutePathToRelative st.cacheFolderPath r with hcrel
  set Fn := InFilesCache.generateCacheFolderName
    (InFilesCache.absolutePathToRelative filePath r) with hFn
  set nA := InFilesCache.generateCacheFileName cA ext with hnAdef
  set nB := InFilesCache.generateCacheFileName cB ext with hnBdef
  set pA := pathJoin [r, cRel, Fn, nA] with hpAdef
  set pB := pathJoin [r, cRel, Fn, nB] with hpBdef
  obtain ⟨hnAg, hnAs⟩ := cacheFileName_goodSeg cA ext hext
  obtain ⟨hnBg, hnBs⟩ := cacheFileName_goodSeg cB ext hext
  -- path structure
  set J := joinSlash (((splitSlash r.data ++ splitSlash cRel.data).filter
    (· ≠ [])) ++ [Fn.data]) with hJdef
  have hPA : pA.data = '/' :: (J ++ '/' :: nA.data) :=
    pathJoinChars_cache r.data cRel.data Fn.data nA.data habs hgr hgc hFg hFsl
      hnAg hnAs
  have hPB : pB.data = '/' :: (J ++ '/' :: nB.data) :=
    pathJoinChars_cache r.data cRel.data Fn.data nB.data habs hgr hgc hFg hFsl
      hnBg hnBs
  have hJne : J ≠ [] := joinSlash_append_ne_nil _ _ hFg.1
  have hdirA : (dirname pA).data = '/' :: J := by
    show dirnameChars pA.data = _
    rw [hPA]
    exact dirnameChars_slot J nA.data hJne hnAg.1 hnAs
  have hdirB : (dirname pB).data = '/' :: J := by
    show dirnameChars pB.data = _
    rw [hPB]
    exact dirnameChars_slot J nB.data hJne hnBg.1 hnBs
  have hdirAB : dirname pA = dirname pB := strExt _ _ (hdirA.trans hdirB.symm)
  -- prefix facts for removal
  have hfolderSlash : (dirname pA ++ "/").data = ('/' :: J) ++ ['/'] := by
    rw [String.data_append, hdirA]
  have hpreA : (dirname pA ++ "/").data.isPrefixOf pA.data = true := by
    rw [hfolderSlash, hPA, List.isPrefixOf_iff_prefix]
    have hx : '/' :: (J ++ '/' :: nA.data) = (('/' :: J) ++ ['/']) ++ nA.data := by
      simp
    rw [hx]
    exact List.prefix_append _ _
  have hpreB : (dirname pA ++ "/").data.isPrefixOf pB.data = true := by
    rw [hfolderSlash, hPB, List.isPrefixOf_iff_prefix]
    have hx : '/' :: (J ++ '/' :: nB.data) = (('/' :: J) ++ ['/']) ++ nB.data := by
      simp
    rw [hx]
    exact List.prefix_append _ _
  -- operation chain
  have ho1 : o1 = ⟨.ok (), (InFilesCache.getAppRootFolderPath L st).2.1,
      outputFileSync pA aA fs, (InFilesCache.getAppRootFolderPath L st).2.2⟩ :=
    InFilesCache.set_eq_of_ok L st fs reqA aA pA (by rw [hrdef]; exact hresA fs)
  set st1 := (InFilesCache.getAppRootFolderPath L st).2.1 with hst1
  set fs1 := outputFileSync pA aA fs with hfs1
  have hroot1 : InFilesCache.effectiveRoot L st1 = r := by
    rw [hst1, InFilesCache.effectiveRoot_after L L st hrne, hrdef]
  have hrne1 : InFilesCache.effectiveRoot L st1 ≠ "" := by
    rw [hroot1]; exact hroot
  have hcf1 : st1.cacheFolderPath = st.cacheFolderPath :=
    InFilesCache.getApp_cacheFolderPath L st
  have ho2 : o2 = InFilesCache.set L st1 fs1 reqB aB := by
    show InFilesCache.set L o1.st o1.fs reqB aB = _
    rw [ho1]
  have ho2' : o2 = ⟨.ok (), (InFilesCache.getAppRootFolderPath L st1).2.1,
      outputFileSync pB aB fs1, (InFilesCache.getAppRootFolderPath L st1).2.2⟩ := by
    rw [ho2]
    exact InFilesCache.set_eq_of_ok L st1 fs1 reqB aB pB
      (by rw [hroot1, hcf1]; exact hresB fs1)
  set st2 := (InFilesCache.getAppRootFolderPath L st1).2.1 with hst2
  set fs2 := outputFileSync pB aB fs1 with hfs2
  have hroot2 : InFilesCache.effectiveRoot L st2 = r := by
    rw [hst2, InFilesCache.effectiveRoot_after L L st1 hrne1, hroot1]
  have hrne2 : InFilesCache.effectiveRoot L st2 ≠ "" := by
    rw [hroot2]; exact hroot
  have hcf2 : st2.cacheFolderPath = st.cacheFolderPath := by
    rw [hst2, InFilesCache.getApp_cacheFolderPath L st1, hcf1]
  have ho3 : o3 = InFilesCache.clear L st2 fs2 reqA := by
    show InFilesCache.clear L o2.st o2.fs reqA = _
    rw [ho2']
  have ho3' : o3 = ⟨.ok (), (InFilesCache.getAppRootFolderPath L st2).2.1,
      removeSync (dirname pA) fs2, (InFilesCache.getAppRootFolderPath L st2).2.2⟩ := by
    rw [ho3]
    exact InFilesCache.clear_eq_of_ok L st2 fs2 reqA pA
      (by rw [hroot2, hcf2]; exact hresA fs2)
  set st3 := (InFilesCache.getAppRootFolderPath L st2).2.1 with hst3
  set fs3 := removeSync (dirname pA) fs2 with hfs3
  have hroot3 : InFilesCache.effectiveRoot L st3 = r := by
    rw [hst3, InFilesCache.effectiveRoot_after L L st2 hrne2, hroot2]
  have hcf3 : st3.cacheFolderPath = st.cacheFolderPath := by
    rw [hst3, InFilesCache.getApp_cacheFolderPath L st2, hcf2]
  -- removal wipes both artifact slots
  have hfs3A : fs3 pA = FileNode.absent := by
    rw [hfs3]
    unfold removeSync
    rw [hpreA]
    simp
  have hfs3B : fs3 pB = FileNode.absent := by
    rw [hfs3]
    unfold removeSync
    rw [hpreB]
    simp
  refine ⟨?_, ?_, ?_, ?_, ?_⟩
  · rw [ho3']
  · rw [ho3']
    have hg := InFilesCache.get_eq_of_ok L st3 fs3 reqA pA
      (by rw [hroot3, hcf3]; exact hresA fs3)
    rw [hst3, hfs3] at hg
    rw [hg]
    show InFilesCache.readFile fs3 pA = .ok none
    unfold InFilesCache.readFile
    rw [hfs3A]
  · rw [ho3']
    have hg := InFilesCache.get_eq_of_ok L st3 fs3 reqB pB
      (by rw [hroot3, hcf3]; exact hresB fs3)
    rw [hst3, hfs3] at hg
    rw [hg]
    show InFilesCache.readFile fs3 pB = .ok none
    unfold InFilesCache.readFile
    rw [hfs3B]
  · unfold InFilesCache.generatePathToFileCacheFolder
    rw [hresA o2.fs, hresB o2.fs]
    show Except.ok (dirname pA) = Except.ok (dirname pB)
    rw [hdirAB]
  · intro fs0 folder hfold hempty q
    have hfoldA : InFilesCache.generatePathToFileCacheFolder fs0
        st.cacheFolderPath r reqA = .ok (dirname pA) := by
      unfold InFilesCache.generatePathToFileCacheFolder
      rw [hresA fs0]
    have hfolder : folder = dirname pA := by
      rw [hfoldA] at hfold
      exact (Except.ok.inj hfold).symm
    subst hfolder
    have hcl : InFilesCache.clear L st fs0 reqA =
        ⟨.ok (), (InFilesCache.getAppRootFolderPath L st).2.1,
          removeSync (dirname pA) fs0,
          (InFilesCache.getAppRootFolderPath L st).2.2⟩ :=
      InFilesCache.clear_eq_of_ok L st fs0 reqA pA (by rw [hrdef]; exact hresA fs0)
    rw [hcl]
    show removeSync (dirname pA) fs0 q = fs0 q
    unfold removeSync
    by_cases hq : (decide (q = dirname pA) ||
        (dirname pA ++ "/").data.isPrefixOf q.data) = true
    · rw [if_pos hq]
      have habsq : fs0 q = FileNode.absent := by
        apply hempty q
        simpa using hq
      rw [habsq]
    · rw [if_neg hq]

/-- Witness for C6: a concrete instance; after two `set`s and a
`clear` with the first content, `get` for either revision misses. -/
theorem clear_removes_whole_file_cache_folder_witness :
    wO3.res = .ok () ∧
    (InFilesCache.get "/app" wO3.st wO3.fs wReqA).res = .ok none ∧
    (InFilesCache.get "/app" wO3.st wO3.fs wReqB).res = .ok none :=
  ⟨(clear_removes_whole_file_cache_folder "/app" wStA wFs0 "someFile.txt" ".txt"
      "contentA" "contentB" "artifactA" "artifactB" "/app" (by decide) (by decide)
      (by decide) (by decide) (by decide) (by decide) (by decide) (by decide)
      (by decide) (by decide)).1,
   (clear_removes_whole_file_cache_folder "/app" wStA wFs0 "someFile.txt" ".txt"
      "contentA" "contentB" "artifactA" "artifactB" "/app" (by decide) (by decide)
      (by decide) (by decide) (by decide) (by decide) (by decide) (by decide)
      (by decide) (by decide)).2.1,
   (clear_removes_whole_file_cache_folder "/app" wStA wFs0 "someFile.txt" ".txt"
      "contentA" "contentB" "artifactA" "artifactB" "/app" (by decide) (by decide)
      (by decide) (by decide) (by decide) (by decide) (by decide) (by decide)
      (by decide) (by decide)).2.2.1⟩
